import Mathlib

/-!
Verification of the `queues` Rust crate (src/lib.rs): a shallow embedding of
its three FIFO containers (`Queue`, `Buffer`, `CircularBuffer`) and proofs of
the specification claims about them.

The embedding follows the source line by line: each Rust `Vec<T>` becomes a
`List α` whose index 0 is the oldest element (`push` appends at the end,
`remove(0)` drops the head), each `&mut self` method becomes a function from
the state to a pair of the returned `Result` and the new state, and each
`&self` method returns the unchanged state.  Rust `Result<_, &str>` becomes
`Except String _` carrying the exact error messages of the source.
-/

namespace Queues

/-- Embeds `Queue<T>` (src/lib.rs lines 221-224): a growable FIFO backed by a
vector. -/
structure Queue (α : Type _) where
  queue : List α
deriving Repr, DecidableEq

/-- Embeds `Queue::new` (lines 239-241): a new, empty queue. -/
def Queue.new {α : Type _} : Queue α := ⟨[]⟩

/-- Embeds `Queue::add` (lines 279-282): push the value, return `Ok(None)`. -/
def Queue.add {α : Type _} (s : Queue α) (v : α) :
    Except String (Option α) × Queue α :=
  (Except.ok none, ⟨s.queue ++ [v]⟩)

/-- Embeds `Queue::remove` (lines 303-309): if the vector is non-empty remove
and return index 0, otherwise return the empty error. -/
def Queue.remove {α : Type _} (s : Queue α) : Except String α × Queue α :=
  match s.queue with
  | [] => (Except.error "The queue is empty", s)
  | x :: xs => (Except.ok x, ⟨xs⟩)

/-- Embeds `Queue::peek` (lines 328-333): clone of the first element, or the
empty error; `&self`, so the state is returned unchanged. -/
def Queue.peek {α : Type _} (s : Queue α) : Except String α × Queue α :=
  match s.queue with
  | [] => (Except.error "The Queue is empty", s)
  | x :: _ => (Except.ok x, s)

/-- Embeds `Queue::size` (lines 349-351): the vector length. -/
def Queue.size {α : Type _} (s : Queue α) : Nat := s.queue.length

/-- Embeds `Buffer<T>` (lines 413-417): a FIFO vector plus a fixed capacity. -/
structure Buffer (α : Type _) where
  queue : List α
  capacity : Nat
deriving Repr, DecidableEq

/-- Embeds `Buffer::new` (lines 432-437): empty vector, given capacity. -/
def Buffer.new {α : Type _} (capacity : Nat) : Buffer α := ⟨[], capacity⟩

/-- Embeds `Buffer::add` (lines 478-485): push and return `Ok(None)` when
`len < capacity`, otherwise return the full error and leave the state as is. -/
def Buffer.add {α : Type _} (s : Buffer α) (v : α) :
    Except String (Option α) × Buffer α :=
  if s.queue.length < s.capacity then
    (Except.ok none, ⟨s.queue ++ [v], s.capacity⟩)
  else
    (Except.error "The buffer is full", s)

/-- Embeds `Buffer::remove` (lines 506-512). -/
def Buffer.remove {α : Type _} (s : Buffer α) : Except String α × Buffer α :=
  match s.queue with
  | [] => (Except.error "The buffer is empty", s)
  | x :: xs => (Except.ok x, ⟨xs, s.capacity⟩)

/-- Embeds `Buffer::peek` (lines 531-536); `&self`, state unchanged. -/
def Buffer.peek {α : Type _} (s : Buffer α) : Except String α × Buffer α :=
  match s.queue with
  | [] => (Except.error "The buffer is empty", s)
  | x :: _ => (Except.ok x, s)

/-- Embeds `Buffer::size` (lines 552-554). -/
def Buffer.size {α : Type _} (s : Buffer α) : Nat := s.queue.length

/-- Embeds `CircularBuffer<T>` (lines 592-597): vector, capacity and optional
default value. -/
structure CircularBuffer (α : Type _) where
  queue : List α
  capacity : Nat
  default_value : Option α
deriving Repr, DecidableEq

/-- Embeds `CircularBuffer::new` (lines 613-619): empty vector, no default. -/
def CircularBuffer.new {α : Type _} (capacity : Nat) : CircularBuffer α :=
  ⟨[], capacity, none⟩

/-- Embeds `CircularBuffer::with_default` (lines 635-643): the vector starts
as `capacity` copies of the default value. -/
def CircularBuffer.with_default {α : Type _} (capacity : Nat) (d : α) :
    CircularBuffer α :=
  ⟨List.replicate capacity d, capacity, some d⟩

/-- Embeds `CircularBuffer::add` (lines 682-690): below capacity, push and
return `Ok(None)`; otherwise push the value and then remove and return index 0
(so the pair of branches below is push-then-pop-head written as a case split
on the old vector). -/
def CircularBuffer.add {α : Type _} (s : CircularBuffer α) (v : α) :
    Except String (Option α) × CircularBuffer α :=
  if s.queue.length < s.capacity then
    (Except.ok none, ⟨s.queue ++ [v], s.capacity, s.default_value⟩)
  else
    match s.queue with
    | [] => (Except.ok (some v), ⟨[], s.capacity, s.default_value⟩)
    | x :: xs => (Except.ok (some x), ⟨xs ++ [v], s.capacity, s.default_value⟩)

/-- Embeds `CircularBuffer::remove` (lines 718-727): on a non-empty vector,
first push a clone of the default value when one is present, then remove and
return index 0; on an empty vector return the empty error. -/
def CircularBuffer.remove {α : Type _} (s : CircularBuffer α) :
    Except String α × CircularBuffer α :=
  match s.queue with
  | [] => (Except.error "The Buffer is empty", s)
  | x :: xs =>
    match s.default_value with
    | some d => (Except.ok x, ⟨xs ++ [d], s.capacity, some d⟩)
    | none => (Except.ok x, ⟨xs, s.capacity, none⟩)

/-- Embeds `CircularBuffer::peek` (lines 746-751); `&self`, state unchanged. -/
def CircularBuffer.peek {α : Type _} (s : CircularBuffer α) :
    Except String α × CircularBuffer α :=
  match s.queue with
  | [] => (Except.error "The Queue is empty", s)
  | x :: _ => (Except.ok x, s)

/-- Embeds `CircularBuffer::size` (lines 769-771). -/
def CircularBuffer.size {α : Type _} (s : CircularBuffer α) : Nat :=
  s.queue.length

/-- One client call on a `CircularBuffer` through the `IsQueue` trait. -/
inductive Op (α : Type _) where
  | add (v : α)
  | remove
  | peek
deriving Repr

/-- The state after one trait call (the returned value is dropped). -/
def CircularBuffer.step {α : Type _} (s : CircularBuffer α) : Op α → CircularBuffer α
  | Op.add v => (s.add v).2
  | Op.remove => s.remove.2
  | Op.peek => s.peek.2

/-- The state after a sequence of trait calls, performed left to right. -/
def CircularBuffer.run {α : Type _} (s : CircularBuffer α) (ops : List (Op α)) :
    CircularBuffer α :=
  ops.foldl CircularBuffer.step s

/-- A client loop calling `Buffer::add` once per value, left to right,
collecting the returned results and the final state. -/
def Buffer.addList {α : Type _} (s : Buffer α) :
    List α → List (Except String (Option α)) × Buffer α
  | [] => ([], s)
  | v :: vs =>
    let r := Buffer.addList (s.add v).2 vs
    ((s.add v).1 :: r.1, r.2)

/-- A client loop calling `Queue::add` once per value, left to right. -/
def Queue.addAll {α : Type _} (s : Queue α) : List α → Queue α
  | [] => s
  | v :: vs => Queue.addAll (s.add v).2 vs

/-- A client loop calling `Queue::remove` the given number of times,
collecting the returned results and the final state. -/
def Queue.removeN {α : Type _} (s : Queue α) :
    Nat → List (Except String α) × Queue α
  | 0 => ([], s)
  | n + 1 =>
    let r := Queue.removeN s.remove.2 n
    (s.remove.1 :: r.1, r.2)

/-- Helper: one trait call on a `CircularBuffer` whose vector length equals
`cap`, whose capacity field is `cap` and whose default value is `some d`
leaves all three facts intact. -/
theorem circular_step_preserves {α : Type _} (cap : Nat) (d : α)
    (s : CircularBuffer α) (op : Op α) (h1 : s.queue.length = cap)
    (h2 : s.default_value = some d) (h3 : s.capacity = cap) :
    (s.step op).queue.length = cap ∧ (s.step op).default_value = some d ∧
      (s.step op).capacity = cap := by
  cases op with
  | add v =>
    cases hq : s.queue with
    | nil =>
      have hc : cap = 0 := by rw [hq] at h1; simpa using h1.symm
      have hnlt : ¬ (0 : Nat) < cap := by omega
      simp [CircularBuffer.step, CircularBuffer.add, hq, h2, h3, hnlt]
      all_goals omega
    | cons x xs =>
      have hlen : xs.length + 1 = cap := by rw [hq] at h1; simpa using h1
      have hnlt : ¬ xs.length + 1 < cap := by omega
      simp [CircularBuffer.step, CircularBuffer.add, hq, h2, h3, hnlt]
      all_goals omega
  | remove =>
    cases hq : s.queue with
    | nil =>
      rw [hq] at h1
      simp [CircularBuffer.step, CircularBuffer.remove, hq, h2, h3]
      all_goals simpa using h1
    | cons x xs =>
      have hlen : xs.length + 1 = cap := by rw [hq] at h1; simpa using h1
      simp [CircularBuffer.step, CircularBuffer.remove, hq, h2, h3]
      all_goals omega
  | peek =>
    cases hq : s.queue with
    | nil =>
      rw [hq] at h1
      simp [CircularBuffer.step, CircularBuffer.peek, hq, h2, h3]
      all_goals simpa using h1
    | cons x xs =>
      rw [hq] at h1
      simp [CircularBuffer.step, CircularBuffer.peek, hq, h2, h3]
      all_goals simpa using h1

/-- Helper: every state reached from `with_default cap d` by a sequence of
trait calls still has vector length `cap`, default `some d` and capacity
`cap`. -/
theorem circular_run_inv {α : Type _} (cap : Nat) (d : α) (ops : List (Op α)) :
    ((CircularBuffer.with_default cap d : CircularBuffer α).run ops).queue.length = cap ∧
    ((CircularBuffer.with_default cap d : CircularBuffer α).run ops).default_value = some d ∧
    ((CircularBuffer.with_default cap d : CircularBuffer α).run ops).capacity = cap := by
  suffices h : ∀ (s : CircularBuffer α), s.queue.length = cap →
      s.default_value = some d → s.capacity = cap →
      (s.run ops).queue.length = cap ∧ (s.run ops).default_value = some d ∧
        (s.run ops).capacity = cap by
    exact h _ (by simp [CircularBuffer.with_default]) rfl rfl
  induction ops with
  | nil => intro s h1 h2 h3; exact ⟨h1, h2, h3⟩
  | cons op ops ih =>
    intro s h1 h2 h3
    obtain ⟨g1, g2, g3⟩ := circular_step_preserves cap d s op h1 h2 h3
    exact ih (s.step op) g1 g2 g3

/-- C1: for any `CircularBuffer` (with or without a default value) whose
vector length is at least its capacity, `add v` returns the previous oldest
element as `Ok(Some _)` and leaves the new vector as the old tail with `v`
appended, so the length is unchanged; below capacity, `add v` appends `v` and
returns `Ok(None)`. -/
theorem circular_add_spec {α : Type _} (s : CircularBuffer α) (v : α) :
    (s.capacity ≤ s.queue.length →
      ∀ x xs, s.queue = x :: xs →
        (s.add v).1 = Except.ok (some x) ∧
        (s.add v).2.queue = xs ++ [v] ∧
        (s.add v).2.size = s.size) ∧
    (s.queue.length < s.capacity →
      (s.add v).1 = Except.ok none ∧
      (s.add v).2.queue = s.queue ++ [v]) := by
  constructor
  · intro hge x xs hq
    have hnlt : ¬ xs.length + 1 < s.capacity := by
      have h := not_lt.mpr hge
      rw [hq] at h
      simpa using h
    simp [CircularBuffer.add, CircularBuffer.size, hq, hnlt]
  · intro hlt
    simp [CircularBuffer.add, hlt]

/-- Witness for C1: a full capacity-2 buffer holding `[10, 20]` evicts `10`
when `30` is added, and a fresh capacity-2 buffer accepts `7` with `Ok(None)`. -/
theorem circular_add_spec_witness :
    ((⟨[10, 20], 2, none⟩ : CircularBuffer ℤ).add 30).1 = Except.ok (some 10) ∧
    ((⟨[10, 20], 2, none⟩ : CircularBuffer ℤ).add 30).2.queue = [20, 30] ∧
    ((⟨[10, 20], 2, none⟩ : CircularBuffer ℤ).add 30).2.size =
      (⟨[10, 20], 2, none⟩ : CircularBuffer ℤ).size ∧
    ((CircularBuffer.new 2 : CircularBuffer ℤ).add 7).1 = Except.ok none := by
  refine ⟨?_, ?_, ?_, ?_⟩
  · exact ((circular_add_spec ⟨[10, 20], 2, none⟩ 30).1 (by decide) 10 [20] rfl).1
  · exact ((circular_add_spec ⟨[10, 20], 2, none⟩ 30).1 (by decide) 10 [20] rfl).2.1
  · exact ((circular_add_spec ⟨[10, 20], 2, none⟩ 30).1 (by decide) 10 [20] rfl).2.2
  · exact ((circular_add_spec (CircularBuffer.new 2) 7).2 (by decide)).1

/-- C4: `Buffer::add` tests `length < capacity`; when the test fails it
returns the full error with the state (hence vector) untouched, and when it
holds it appends the value and returns `Ok(None)`. -/
theorem buffer_add_spec {α : Type _} (s : Buffer α) (v : α) :
    (¬ s.queue.length < s.capacity →
      (s.add v).1 = Except.error "The buffer is full" ∧ (s.add v).2 = s) ∧
    (s.queue.length < s.capacity →
      (s.add v).1 = Except.ok none ∧
      (s.add v).2.queue = s.queue ++ [v]) := by
  constructor
  · intro hnlt
    simp [Buffer.add, hnlt]
  · intro hlt
    simp [Buffer.add, hlt]

/-- Witness for C4: a full capacity-1 buffer rejects `5` unchanged, and an
empty capacity-1 buffer accepts `5`. -/
theorem buffer_add_spec_witness :
    ((⟨[3], 1⟩ : Buffer ℤ).add 5).1 = Except.error "The buffer is full" ∧
    ((⟨[3], 1⟩ : Buffer ℤ).add 5).2 = (⟨[3], 1⟩ : Buffer ℤ) ∧
    ((Buffer.new 1 : Buffer ℤ).add 5).1 = Except.ok none ∧
    ((Buffer.new 1 : Buffer ℤ).add 5).2.queue = [5] := by
  refine ⟨?_, ?_, ?_, ?_⟩
  · exact ((buffer_add_spec ⟨[3], 1⟩ 5).1 (by decide)).1
  · exact ((buffer_add_spec ⟨[3], 1⟩ 5).1 (by decide)).2
  · exact ((buffer_add_spec (Buffer.new 1) 5).2 (by decide)).1
  · exact ((buffer_add_spec (Buffer.new 1) 5).2 (by decide)).2

/-- C5: on a default-valued `CircularBuffer` with a non-empty vector,
`remove` returns the old head as `Ok` and the new vector is the old tail with
one copy of the default appended; when the vector was at capacity the size is
restored to capacity. -/
theorem circular_remove_default_spec {α : Type _} (s : CircularBuffer α)
    (d : α) (hd : s.default_value = some d) :
    ∀ x xs, s.queue = x :: xs →
      s.remove.1 = Except.ok x ∧
      s.remove.2.queue = xs ++ [d] ∧
      (s.size = s.capacity → s.remove.2.size = s.capacity) := by
  intro x xs hq
  refine ⟨?_, ?_, ?_⟩
  · simp [CircularBuffer.remove, hq, hd]
  · simp [CircularBuffer.remove, hq, hd]
  · intro hsz
    have : s.remove.2.queue = xs ++ [d] := by
      simp [CircularBuffer.remove, hq, hd]
    simp only [CircularBuffer.size, this, List.length_append, List.length_singleton]
    simp only [CircularBuffer.size, hq, List.length_cons] at hsz
    omega

/-- Witness for C5: removing from `[9, 8]` with default `0` and capacity 2
yields `Ok(9)` and vector `[8, 0]`, keeping size 2. -/
theorem circular_remove_default_spec_witness :
    (⟨[9, 8], 2, some 0⟩ : CircularBuffer ℤ).remove.1 = Except.ok 9 ∧
    (⟨[9, 8], 2, some 0⟩ : CircularBuffer ℤ).remove.2.queue = [8, 0] ∧
    (⟨[9, 8], 2, some 0⟩ : CircularBuffer ℤ).remove.2.size = 2 := by
  refine ⟨?_, ?_, ?_⟩
  · exact (circular_remove_default_spec ⟨[9, 8], 2, some 0⟩ 0 rfl 9 [8] rfl).1
  · exact (circular_remove_default_spec ⟨[9, 8], 2, some 0⟩ 0 rfl 9 [8] rfl).2.1
  · exact (circular_remove_default_spec ⟨[9, 8], 2, some 0⟩ 0 rfl 9 [8] rfl).2.2 rfl

/-- C6: on `CircularBuffer::new(0)` (capacity 0, no default), `add v` returns
`Ok(Some v)` — the value just added is immediately evicted — and the size
stays 0 (in fact the state is unchanged). -/
theorem circular_new_zero_add {α : Type _} (v : α) :
    ((CircularBuffer.new 0 : CircularBuffer α).add v).1 = Except.ok (some v) ∧
    ((CircularBuffer.new 0 : CircularBuffer α).add v).2.size = 0 ∧
    ((CircularBuffer.new 0 : CircularBuffer α).add v).2 = CircularBuffer.new 0 := by
  refine ⟨rfl, rfl, rfl⟩

/-- C9: `peek` on a `Queue` or a `Buffer` leaves the state unchanged, so the
size after equals the size before and a second `peek` returns the same result
as the first. -/
theorem peek_frame {α : Type _} (q : Queue α) (b : Buffer α) :
    (q.peek.2 = q ∧ q.peek.2.size = q.size ∧ q.peek.2.peek.1 = q.peek.1) ∧
    (b.peek.2 = b ∧ b.peek.2.size = b.size ∧ b.peek.2.peek.1 = b.peek.1) := by
  constructor
  · have hq : q.peek.2 = q := by
      cases hqq : q.queue <;> simp [Queue.peek, hqq]
    exact ⟨hq, by rw [hq], by rw [hq]⟩
  · have hb : b.peek.2 = b := by
      cases hbq : b.queue <;> simp [Buffer.peek, hbq]
    exact ⟨hb, by rw [hb], by rw [hb]⟩

/-- C2: a buffer built by `with_default cap d` has size `cap` at once, and on
any state of such a buffer (capacity `cap`, default `some d`, size `cap`)
every `add` keeps the size at `cap`, every successful `remove` keeps the size
at `cap`, and an `add` on a non-empty vector evicts exactly the oldest
element. -/
theorem circular_default_size_invariant {α : Type _} (cap : Nat) (d : α) :
    (CircularBuffer.with_default cap d : CircularBuffer α).size = cap ∧
    ∀ s : CircularBuffer α, s.capacity = cap → s.default_value = some d →
      s.size = cap →
      (∀ v, ((s.add v).2).size = cap) ∧
      (∀ x, s.remove.1 = Except.ok x → s.remove.2.size = cap) ∧
      (∀ v x xs, s.queue = x :: xs →
        (s.add v).1 = Except.ok (some x) ∧ (s.add v).2.queue = xs ++ [v]) := by
  constructor
  · simp [CircularBuffer.with_default, CircularBuffer.size]
  · intro s h3 h2 h1
    simp only [CircularBuffer.size] at h1
    refine ⟨?_, ?_, ?_⟩
    · intro v
      cases hq : s.queue with
      | nil =>
        have hc : cap = 0 := by rw [hq] at h1; simpa using h1.symm
        have hnlt : ¬ (0 : Nat) < cap := by omega
        simp [CircularBuffer.add, CircularBuffer.size, hq, h3, hnlt]
        all_goals omega
      | cons x xs =>
        have hlen : xs.length + 1 = cap := by rw [hq] at h1; simpa using h1
        have hnlt : ¬ xs.length + 1 < cap := by omega
        simp [CircularBuffer.add, CircularBuffer.size, hq, h3, hnlt]
        all_goals omega
    · intro x hok
      cases hq : s.queue with
      | nil => simp [CircularBuffer.remove, hq] at hok
      | cons y ys =>
        have hlen : ys.length + 1 = cap := by rw [hq] at h1; simpa using h1
        simp [CircularBuffer.remove, CircularBuffer.size, hq, h2]
        all_goals omega
    · intro v x xs hq
      have hlen : xs.length + 1 = cap := by rw [hq] at h1; simpa using h1
      have hnlt : ¬ xs.length + 1 < cap := by omega
      simp [CircularBuffer.add, hq, h3, hnlt]

/-- Witness for C2: a capacity-2 buffer with default 0 holding `[4, 5]` keeps
size 2 across `add 6` and across `remove`, and `add 6` evicts `4`. -/
theorem circular_default_size_invariant_witness :
    (CircularBuffer.with_default 2 (0 : ℤ)).size = 2 ∧
    ((⟨[4, 5], 2, some 0⟩ : CircularBuffer ℤ).add 6).2.size = 2 ∧
    (⟨[4, 5], 2, some 0⟩ : CircularBuffer ℤ).remove.2.size = 2 ∧
    ((⟨[4, 5], 2, some 0⟩ : CircularBuffer ℤ).add 6).1 = Except.ok (some 4) := by
  refine ⟨(circular_default_size_invariant 2 (0 : ℤ)).1, ?_, ?_, ?_⟩
  · exact (((circular_default_size_invariant 2 (0 : ℤ)).2
      ⟨[4, 5], 2, some 0⟩ rfl rfl rfl).1) 6
  · exact (((circular_default_size_invariant 2 (0 : ℤ)).2
      ⟨[4, 5], 2, some 0⟩ rfl rfl rfl).2.1) 4 rfl
  · exact ((((circular_default_size_invariant 2 (0 : ℤ)).2
      ⟨[4, 5], 2, some 0⟩ rfl rfl rfl).2.2) 6 4 [5] rfl).1

/-- Counterexample to C3 as stated: `with_default(0, d)` is a default-valued
`CircularBuffer` on which `peek` and `remove` do return the empty errors. -/
theorem circular_default_errors_cex :
    (CircularBuffer.with_default 0 (0 : ℤ)).peek.1 =
      Except.error "The Queue is empty" ∧
    (CircularBuffer.with_default 0 (0 : ℤ)).remove.1 =
      Except.error "The Buffer is empty" :=
  ⟨rfl, rfl⟩

/-- C3 amended (capacity restricted to be positive): `add` never errors on
any `CircularBuffer`, and on every state reached from `with_default cap d`
with `0 < cap` by any sequence of trait calls, `remove` and `peek` return
`Ok`. -/
theorem circular_default_never_errors {α : Type _} (cap : Nat) (d : α)
    (hcap : 0 < cap) (ops : List (Op α)) :
    (∀ (t : CircularBuffer α) (v : α), ∃ r, (t.add v).1 = Except.ok r) ∧
    (∃ x, ((CircularBuffer.with_default cap d : CircularBuffer α).run ops).remove.1 =
      Except.ok x) ∧
    (∃ x, ((CircularBuffer.with_default cap d : CircularBuffer α).run ops).peek.1 =
      Except.ok x) := by
  obtain ⟨h1, h2, h3⟩ := circular_run_inv cap d ops
  refine ⟨?_, ?_, ?_⟩
  · intro t v
    by_cases h : t.queue.length < t.capacity
    · exact ⟨none, by simp [CircularBuffer.add, h]⟩
    · cases hq : t.queue with
      | nil =>
        rw [hq] at h
        simp only [List.length_nil] at h
        exact ⟨some v, by simp [CircularBuffer.add, h, hq]⟩
      | cons x xs =>
        rw [hq] at h
        simp only [List.length_cons] at h
        exact ⟨some x, by simp [CircularBuffer.add, h, hq]⟩
  · cases hq : ((CircularBuffer.with_default cap d : CircularBuffer α).run ops).queue with
    | nil => rw [hq] at h1; simp at h1; omega
    | cons x xs => exact ⟨x, by simp [CircularBuffer.remove, hq, h2]⟩
  · cases hq : ((CircularBuffer.with_default cap d : CircularBuffer α).run ops).queue with
    | nil => rw [hq] at h1; simp at h1; omega
    | cons x xs => exact ⟨x, by simp [CircularBuffer.peek, hq]⟩

/-- Witness for amended C3: after `add 5` on `with_default 1 0`, both `remove`
and `peek` return `Ok`. -/
theorem circular_default_never_errors_witness :
    (∃ x, ((CircularBuffer.with_default 1 (0 : ℤ)).run [Op.add 5]).remove.1 =
      Except.ok x) ∧
    (∃ x, ((CircularBuffer.with_default 1 (0 : ℤ)).run [Op.add 5]).peek.1 =
      Except.ok x) :=
  ⟨(circular_default_never_errors 1 (0 : ℤ) (by decide) [Op.add 5]).2.1,
   (circular_default_never_errors 1 (0 : ℤ) (by decide) [Op.add 5]).2.2⟩

/-- Helper: adding a list of values to a buffer with enough room succeeds
with `Ok(None)` every time and appends them in order. -/
theorem buffer_addList_ok {α : Type _} (c : Nat) (q vs : List α)
    (h : q.length + vs.length ≤ c) :
    (Buffer.addList ⟨q, c⟩ vs).1 = List.replicate vs.length (Except.ok none) ∧
    (Buffer.addList ⟨q, c⟩ vs).2 = ⟨q ++ vs, c⟩ := by
  induction vs generalizing q with
  | nil => simp [Buffer.addList]
  | cons v vs ih =>
    have hlt : q.length < c := by simp at h; omega
    have hrec := ih (q ++ [v]) (by simp at h ⊢; omega)
    simp only [Buffer.addList, Buffer.add, hlt, if_pos]
    rw [hrec.1, hrec.2]
    simp [List.replicate_succ]

/-- C7: starting from `Buffer::new c` and adding a list of `c` values, every
one of the `c` calls returns `Ok(None)`; the next `add` returns the full
error; and on any buffer within capacity, after a successful `remove` one
further `add` succeeds. -/
theorem buffer_capacity_spec {α : Type _} (c : Nat) (vs : List α)
    (hlen : vs.length = c) :
    ((Buffer.new c : Buffer α).addList vs).1 =
      List.replicate c (Except.ok none) ∧
    (∀ w, (((Buffer.new c : Buffer α).addList vs).2.add w).1 =
      Except.error "The buffer is full") ∧
    (∀ s : Buffer α, s.queue.length ≤ s.capacity →
      ∀ x, s.remove.1 = Except.ok x →
        ∀ w, (s.remove.2.add w).1 = Except.ok none) := by
  have hfill := buffer_addList_ok c [] vs (by simp [hlen])
  refine ⟨?_, ?_, ?_⟩
  · rw [show (Buffer.new c : Buffer α) = ⟨[], c⟩ from rfl, hfill.1, hlen]
  · intro w
    rw [show (Buffer.new c : Buffer α) = ⟨[], c⟩ from rfl, hfill.2]
    have hnlt : ¬ vs.length < c := by omega
    simp [Buffer.add, hnlt]
  · intro s hle x hok w
    cases hq : s.queue with
    | nil => simp [Buffer.remove, hq] at hok
    | cons y ys =>
      rw [hq] at hle
      simp only [List.length_cons] at hle
      have hlt : ys.length < s.capacity := by omega
      simp [Buffer.remove, Buffer.add, hq, hlt]

/-- Witness for C7: with capacity 2 and values `[1, 2]`, both adds return
`Ok(None)`, a third add returns the full error, and after removing from
`[1, 2]` an `add` succeeds again. -/
theorem buffer_capacity_spec_witness :
    ((Buffer.new 2 : Buffer ℤ).addList [1, 2]).1 =
      List.replicate 2 (Except.ok none) ∧
    (((Buffer.new 2 : Buffer ℤ).addList [1, 2]).2.add 3).1 =
      Except.error "The buffer is full" ∧
    ((⟨[1, 2], 2⟩ : Buffer ℤ).remove.2.add 3).1 = Except.ok none := by
  refine ⟨(buffer_capacity_spec 2 [1, 2] rfl).1, ?_, ?_⟩
  · exact (buffer_capacity_spec 2 [1, 2] rfl).2.1 3
  · exact (buffer_capacity_spec 2 [1, 2] rfl).2.2 ⟨[1, 2], 2⟩ (by decide) 1 rfl 3

/-- Helper: adding a list of values to a queue appends them in order. -/
theorem queue_addAll_queue {α : Type _} (q vs : List α) :
    (Queue.addAll ⟨q⟩ vs).queue = q ++ vs := by
  induction vs generalizing q with
  | nil => simp [Queue.addAll]
  | cons v vs ih =>
    simp only [Queue.addAll, Queue.add]
    rw [ih (q ++ [v])]
    simp

/-- Helper: removing `n` times from a queue holding exactly `n` values
returns each of them, oldest first, wrapped in `Ok`. -/
theorem queue_removeN_all {α : Type _} (vs : List α) :
    ((⟨vs⟩ : Queue α).removeN vs.length).1 = vs.map Except.ok := by
  induction vs with
  | nil => simp [Queue.removeN]
  | cons v vs ih => simp [Queue.removeN, Queue.remove, ih]

/-- C8: adding `N` values to a fresh queue and then removing `N` times yields
exactly those values in insertion order, each wrapped in `Ok` (FIFO law). -/
theorem queue_fifo {α : Type _} (vs : List α) :
    (((Queue.new : Queue α).addAll vs).removeN vs.length).1 =
      vs.map Except.ok := by
  have h1 : (Queue.new : Queue α).addAll vs = ⟨vs⟩ := by
    have h := queue_addAll_queue ([] : List α) vs
    simp only [List.nil_append] at h
    exact congrArg Queue.mk h
  rw [h1]
  exact queue_removeN_all vs

/-- C10: a `with_default(0, d)` buffer starts empty and is a fixed point of
every trait call sequence; its size is always 0, every `add v` returns
`Ok(Some v)`, and `remove` and `peek` always return the empty errors. -/
theorem circular_default_zero_spec {α : Type _} (d : α) (ops : List (Op α))
    (v : α) :
    (CircularBuffer.with_default 0 d : CircularBuffer α).run ops =
      CircularBuffer.with_default 0 d ∧
    ((CircularBuffer.with_default 0 d : CircularBuffer α).run ops).size = 0 ∧
    (((CircularBuffer.with_default 0 d : CircularBuffer α).run ops).add v).1 =
      Except.ok (some v) ∧
    ((CircularBuffer.with_default 0 d : CircularBuffer α).run ops).remove.1 =
      Except.error "The Buffer is empty" ∧
    ((CircularBuffer.with_default 0 d : CircularBuffer α).run ops).peek.1 =
      Except.error "The Queue is empty" := by
  have hstep : ∀ op : Op α,
      CircularBuffer.step (CircularBuffer.with_default 0 d) op =
        CircularBuffer.with_default 0 d := by
    intro op
    cases op <;> rfl
  have hrun : (CircularBuffer.with_default 0 d : CircularBuffer α).run ops =
      CircularBuffer.with_default 0 d := by
    induction ops with
    | nil => rfl
    | cons op ops ih =>
      show ((CircularBuffer.with_default 0 d).step op).run ops = _
      rw [hstep op]
      exact ih
  rw [hrun]
  exact ⟨rfl, rfl, rfl, rfl, rfl⟩

end Queues
